import Mathlib

/-!
Verification of the Bitcoin-family transaction virtual-size estimator
(`src/provider/chains/btc/sdk/vsize.ts`) and of the address-codec
round-trip property, as a shallow embedding in Lean 4.

In the embedding, the JavaScript number `vsize` (an exact binary fraction:
all constants are multiples of 1/4 and stay far below the float-precision
bound) is modelled as a rational; `Math.ceil` is `Int.ceil`; an
encoding is a `String`; the OP_RETURN payload is modelled as its byte
sequence (`Buffer.from` of a string), `Option`-wrapped to reflect the
optional parameter; `Buffer.slice(0, limit)` is modelled over integer
limits with JavaScript's negative-end semantics.
-/

namespace Vsize

/-- Header overhead: nVersion(4) + InputCount(1) + OutputCount(1) + nLockTime(4). -/
def HEADER_VSIZE : ℚ := 10

/-- SegwitMarker(0.25) + SegwitFlag(0.25). -/
def SEGWIT_HEADER_EXTENSION_VSIZE : ℚ := 1/2

/-- Per-encoding input cost table; `none` models a key absent from the record. -/
def INPUT_VSIZE_LOOKUP (encoding : String) : Option ℚ :=
  if encoding = "P2PKH" then some 148
  else if encoding = "P2WPKH" then some 68
  else if encoding = "P2SH-P2WPKH" then some 91
  else none

def SEGWIT_INPUT_WITNESS_ITEM_COUNT_VSIZE : ℚ := 1/4

/-- Per-encoding output cost table. -/
def OUTPUT_VSIZE_LOOKUP (encoding : String) : Option ℚ :=
  if encoding = "P2PKH" then some 34
  else if encoding = "P2WPKH" then some 31
  else if encoding = "P2SH-P2WPKH" then some 32
  else none

def OP_RETURN_OUTPUT_PREFIX_VSIZE : ℚ := 12

def PLACEHOLDER_VSIZE : ℤ := 79

def TX_OP_RETURN_SIZE_LIMIT : ℤ := 80

/-- `pat` occurs contiguously in `l` (JavaScript `String.prototype.includes`). -/
def hasInfixList (pat : List Char) : List Char → Bool
  | [] => pat.isEmpty
  | c :: cs => pat.isPrefixOf (c :: cs) || hasInfixList pat cs

/-- `s.includes(pat)` on strings. -/
def includesStr (s pat : String) : Bool := hasInfixList pat.toList s.toList

/-- `Buffer.from(opReturn).slice(0, opReturnSizeLimit)`: a non-negative end
truncates to the first `limit` bytes; a negative end counts from the end of
the buffer, clamped at zero. -/
def loadOPReturn (opReturn : List ℕ) (limit : ℤ := TX_OP_RETURN_SIZE_LIMIT) :
    List ℕ :=
  if 0 ≤ limit then opReturn.take limit.toNat
  else opReturn.take (opReturn.length - (-limit).toNat)

/-- `inputEncodings.filter((encoding) => encoding.includes('P2WPKH')).length >= 1`. -/
def hasSegwit (inputEncodings : List String) : Bool :=
  decide (1 ≤ (inputEncodings.filter
    (fun encoding => includesStr encoding "P2WPKH")).length)

/-- The accumulated `vsize` before the final `Math.ceil`, mirroring the
statement order of `estimateVsize` in `vsize.ts`. -/
def estimateVsizeQ (inputEncodings outputEncodings : List String)
    (opReturn : Option (List ℕ)) (opReturnSizeLimit : ℤ) : ℚ :=
  let v1 : ℚ :=
    HEADER_VSIZE +
      (if hasSegwit inputEncodings then SEGWIT_HEADER_EXTENSION_VSIZE else 0)
  let v2 : ℚ := v1 +
    (inputEncodings.map (fun encoding =>
      (INPUT_VSIZE_LOOKUP encoding).getD 0)).sum
  let v3 : ℚ := v2 +
    (if hasSegwit inputEncodings then SEGWIT_INPUT_WITNESS_ITEM_COUNT_VSIZE
      else 0)
  let v4 : ℚ := v3 +
    (outputEncodings.map (fun encoding =>
      (OUTPUT_VSIZE_LOOKUP encoding).getD 0)).sum
  match opReturn with
  | some payload =>
      let opReturnLength : ℕ := (loadOPReturn payload opReturnSizeLimit).length
      v4 + OP_RETURN_OUTPUT_PREFIX_VSIZE *
          ((Int.ceil ((opReturnLength : ℚ) / (opReturnSizeLimit : ℚ)) : ℤ) : ℚ)
        + (opReturnLength : ℚ)
  | none => v4

/-- `estimateVsize` of `vsize.ts`: the final `Math.ceil` of the accumulator. -/
def estimateVsize (inputEncodings outputEncodings : List String)
    (opReturn : Option (List ℕ) := none)
    (opReturnSizeLimit : ℤ := TX_OP_RETURN_SIZE_LIMIT) : ℤ :=
  Int.ceil (estimateVsizeQ inputEncodings outputEncodings opReturn
    opReturnSizeLimit)

/-- Sum of the per-input table costs, with absent keys counted as zero. -/
def inputCostSum (inputEncodings : List String) : ℚ :=
  (inputEncodings.map (fun encoding => (INPUT_VSIZE_LOOKUP encoding).getD 0)).sum

/-- Sum of the per-output table costs, with absent keys counted as zero. -/
def outputCostSum (outputEncodings : List String) : ℚ :=
  (outputEncodings.map (fun encoding =>
    (OUTPUT_VSIZE_LOOKUP encoding).getD 0)).sum

/-- The OP_RETURN contribution: chunk-prefix overhead times
`Math.ceil(length / limit)` plus the truncated byte length. -/
def opReturnCost (opReturn : Option (List ℕ)) (limit : ℤ) : ℚ :=
  match opReturn with
  | some payload =>
      let opReturnLength : ℕ := (loadOPReturn payload limit).length
      OP_RETURN_OUTPUT_PREFIX_VSIZE *
          ((Int.ceil ((opReturnLength : ℚ) / (limit : ℚ)) : ℤ) : ℚ)
        + (opReturnLength : ℚ)
  | none => 0

end Vsize

namespace Codec

/-- Modelled from the spec: the address-codec implementation (per-family
base58/bech32 encode, decode and checksum logic of `pubkeyToAddress` /
`verifyAddress`) is not among the sampled sources — only its test file is.
A scheme is one supported encoding of a chain family: its encoding tag and
the family-and-encoding-specific version byte / prefix applied to the
hashed key material ("apply the chain family's version byte /
human-readable prefix; produce the display string"). -/
structure Scheme where
  tag : String
  ver : Char
deriving DecidableEq

/-- Modelled from the spec: a chain family's supported schemes, listed in
the fixed priority order `verifyAddress` tries them in. -/
structure ChainConfig where
  schemes : List Scheme
deriving DecidableEq

/-- Modelled from the spec: "compute the canonical hash of the public key
per the encoding's script template" — an abstract deterministic digest of
the key bytes; only determinism matters for the round-trip property. -/
def modelHash (pubkey : List ℕ) : List ℕ := pubkey

/-- Modelled from the spec: render the hashed payload as display
characters. -/
def renderBody (digest : List ℕ) : List Char :=
  digest.map (fun b => Char.ofNat (b % 256))

/-- Modelled from the spec: the `AddressVerification` record
`{ isValid, displayAddress?, normalizedAddress?, encoding? }`. -/
structure AddressVerification where
  isValid : Bool
  displayAddress : Option (List Char)
  normalizedAddress : Option (List Char)
  encoding : Option String
deriving DecidableEq

/-- Modelled from the spec: `pubkeyToAddress` derives the address for a
requested encoding — version prefix followed by the rendered key hash — and
fails (here `none`, standing for `UnsupportedEncodingError`) when the
encoding is not in the chain family's supported set. -/
def pubkeyToAddress (chain : ChainConfig) (encoding : String)
    (pubkey : List ℕ) : Option (List Char) :=
  match chain.schemes.find? (fun s => s.tag == encoding) with
  | some s => some (s.ver :: renderBody (modelHash pubkey))
  | none => none

/-- Modelled from the spec: structural/checksum validation of a candidate
address against one scheme — the version prefix must match. -/
def checkScheme (s : Scheme) (address : List Char) : Bool :=
  match address with
  | [] => false
  | c :: _ => c == s.ver

/-- Modelled from the spec: `verifyAddress` attempts each scheme the chain
family supports in its fixed priority order; the first scheme that
validates yields `isValid: true` with the canonical display and normalized
forms and the matched encoding; if none validates the result is the
negative record — it never raises. -/
def verifyAddress (chain : ChainConfig) (address : List Char) :
    AddressVerification :=
  match chain.schemes.find? (fun s => checkScheme s address) with
  | some s => ⟨true, some address, some address, some s.tag⟩
  | none => ⟨false, none, none, none⟩

/-- Modelled from the spec: the primary-chain family supporting the three
encodings exercised by the fixture tests, with distinct version prefixes. -/
def btcChain : ChainConfig :=
  ⟨[⟨"P2PKH", '1'⟩, ⟨"P2WPKH", 'b'⟩, ⟨"P2SH-P2WPKH", '3'⟩]⟩

/-- Modelled from the spec: the forked sibling family with its own
chain-specific prefixes for the same key material. -/
def bchChain : ChainConfig :=
  ⟨[⟨"P2PKH", 'q'⟩, ⟨"P2SH-P2WPKH", 'p'⟩]⟩

end Codec

namespace Vsize

theorem ceil_eval {q : ℚ} {z : ℤ} (h1 : (z : ℚ) - 1 < q) (h2 : q ≤ (z : ℚ)) :
    Int.ceil q = z :=
  Int.ceil_eq_iff.mpr ⟨h1, h2⟩

theorem hasSegwit_eq_any (ins : List String) :
    hasSegwit ins = ins.any (fun encoding => includesStr encoding "P2WPKH") := by
  induction ins with
  | nil => rfl
  | cons e rest ih =>
    rw [hasSegwit] at ih ⊢
    rw [List.any_cons, List.filter_cons]
    cases h : includesStr e "P2WPKH" with
    | false => simpa [h] using ih
    | true => simp [h]

theorem estimateVsizeQ_eq (ins outs : List String) (op : Option (List ℕ))
    (limit : ℤ) :
    estimateVsizeQ ins outs op limit =
      HEADER_VSIZE +
        (if hasSegwit ins then
          SEGWIT_HEADER_EXTENSION_VSIZE + SEGWIT_INPUT_WITNESS_ITEM_COUNT_VSIZE
         else 0) +
        inputCostSum ins + outputCostSum outs + opReturnCost op limit := by
  cases op with
  | none =>
    cases h : hasSegwit ins <;>
      simp [estimateVsizeQ, opReturnCost, inputCostSum, outputCostSum, h] <;>
      ring
  | some payload =>
    cases h : hasSegwit ins <;>
      (simp [estimateVsizeQ, opReturnCost, inputCostSum, outputCostSum, h];
        ring)

theorem inputCost_nonneg (e : String) : 0 ≤ (INPUT_VSIZE_LOOKUP e).getD 0 := by
  rw [INPUT_VSIZE_LOOKUP]
  split_ifs <;> norm_num

theorem outputCost_nonneg (e : String) : 0 ≤ (OUTPUT_VSIZE_LOOKUP e).getD 0 := by
  rw [OUTPUT_VSIZE_LOOKUP]
  split_ifs <;> norm_num

theorem inputCostSum_nonneg (ins : List String) : 0 ≤ inputCostSum ins := by
  apply List.sum_nonneg
  intro x hx
  obtain ⟨e, _, rfl⟩ := List.mem_map.mp hx
  exact inputCost_nonneg e

theorem outputCostSum_nonneg (outs : List String) : 0 ≤ outputCostSum outs := by
  apply List.sum_nonneg
  intro x hx
  obtain ⟨e, _, rfl⟩ := List.mem_map.mp hx
  exact outputCost_nonneg e

/-- C4: `estimateVsize(["P2WPKH"], [])` with no payload returns 79 and the
exported constant `PLACEHOLDER_VSIZE` equals that same value. -/
theorem placeholder_vsize_eq :
    estimateVsize ["P2WPKH"] [] none TX_OP_RETURN_SIZE_LIMIT = 79 ∧
    PLACEHOLDER_VSIZE = 79 := by
  refine ⟨?_, rfl⟩
  rw [estimateVsize]
  apply ceil_eval <;>
  · simp only [estimateVsizeQ, (by decide : hasSegwit ["P2WPKH"] = true),
      INPUT_VSIZE_LOOKUP, OUTPUT_VSIZE_LOOKUP, String.reduceEq, if_true,
      if_false, eq_self_iff_true, List.map_cons, List.map_nil, List.sum_cons,
      List.sum_nil, Option.getD_some, HEADER_VSIZE,
      SEGWIT_HEADER_EXTENSION_VSIZE, SEGWIT_INPUT_WITNESS_ITEM_COUNT_VSIZE]
    norm_num

/-- C6: the estimator is a total function of its four arguments: for every
pair of encoding lists, every payload (present or absent) and every size
limit, `estimateVsize` returns a value.  Every operation the source performs
(`filter`, `map`, `reduce`, `slice`, division, `Math.ceil`) is total, so the
shallow embedding is a total function and no input can raise. -/
theorem estimateVsize_total (ins outs : List String) (op : Option (List ℕ))
    (limit : ℤ) : ∃ v : ℤ, estimateVsize ins outs op limit = v :=
  ⟨estimateVsize ins outs op limit, rfl⟩

/-- C1 (counterexample): at chunk limit 1 and a 3-byte payload
(`3 = 2 * 1 + 1`), the estimate exceeds the payload-free estimate by
`12 + 1 = 13`, not by the claimed `3 * 12` plus the truncated payload
length: the chunk count is computed from the already-truncated length,
so it is 1, never 3. -/
theorem payload_two_limit_counterexample :
    estimateVsize [] [] (some [0, 0, 0]) 1 - estimateVsize [] [] none 1 ≠
      3 * 12 + ((loadOPReturn [0, 0, 0] 1).length : ℤ) := by
  have h1 : estimateVsize [] [] (some [0, 0, 0]) 1 = 23 := by
    rw [estimateVsize]
    apply ceil_eval <;>
    · simp only [estimateVsizeQ, (by decide : hasSegwit ([] : List String) = false),
        Bool.false_eq_true, if_true, if_false, List.map_nil, List.sum_nil,
        HEADER_VSIZE, OP_RETURN_OUTPUT_PREFIX_VSIZE,
        (by decide : loadOPReturn [0, 0, 0] 1 = [0]), List.length_cons,
        List.length_nil]
      norm_num [Int.ceil_intCast]
  have h2 : estimateVsize [] [] none 1 = 10 := by
    rw [estimateVsize]
    apply ceil_eval <;>
    · simp only [estimateVsizeQ, (by decide : hasSegwit ([] : List String) = false),
        Bool.false_eq_true, if_true, if_false, List.map_nil, List.sum_nil,
        HEADER_VSIZE]
      norm_num
  have h3 : (loadOPReturn [0, 0, 0] 1).length = 1 := by decide
  rw [h1, h2, h3]
  decide

/-- C1 (amended): for chunk limit `limit > 0` and a payload of byte length
`2 * limit + 1`, the estimate exceeds the payload-free estimate by exactly
one `12`-byte chunk-prefix overhead plus the truncated payload length
`limit` (the chunk count `ceil(truncatedLength / limit)` equals 1, since
the payload is truncated before the chunk count is taken). -/
theorem payload_truncated_single_chunk (ins outs : List String) (limit : ℤ)
    (hpos : 0 < limit) (payload : List ℕ)
    (hlen : (payload.length : ℤ) = 2 * limit + 1) :
    estimateVsize ins outs (some payload) limit =
      estimateVsize ins outs none limit + 12 + limit := by
  have hload : (loadOPReturn payload limit).length = limit.toNat := by
    rw [loadOPReturn, if_pos hpos.le, List.length_take]
    omega
  have hcast : ((limit.toNat : ℕ) : ℚ) = (limit : ℚ) := by
    rw [← Int.cast_natCast, Int.toNat_of_nonneg hpos.le]
  have hne : (limit : ℚ) ≠ 0 := by
    exact_mod_cast hpos.ne'
  have hcost : opReturnCost (some payload) limit = ((12 + limit : ℤ) : ℚ) := by
    rw [opReturnCost]
    simp only [hload, hcast]
    rw [div_self hne, Int.ceil_one, OP_RETURN_OUTPUT_PREFIX_VSIZE]
    push_cast
    ring
  have hQ : estimateVsizeQ ins outs (some payload) limit =
      estimateVsizeQ ins outs none limit + ((12 + limit : ℤ) : ℚ) := by
    rw [estimateVsizeQ_eq, estimateVsizeQ_eq, hcost]
    simp only [opReturnCost]
    ring
  rw [estimateVsize, estimateVsize, hQ, Int.ceil_add_int]
  ring

/-- Witness for C1 (amended) at `limit = 1`, payload `[0, 0, 0]`. -/
theorem payload_truncated_single_chunk_witness :
    (0 : ℤ) < 1 ∧ ((([0, 0, 0] : List ℕ).length : ℤ) = 2 * 1 + 1) ∧
    estimateVsize [] [] (some [0, 0, 0]) 1 =
      estimateVsize [] [] none 1 + 12 + 1 :=
  ⟨by decide, by decide,
    payload_truncated_single_chunk [] [] 1 (by decide) [0, 0, 0] (by decide)⟩

/-- C2 (counterexample): the input list `["P2SH-P2WPKH"]` contains no
native-segwit (`"P2WPKH"`) encoding, yet the segwit marker+flag and
witness-count overheads are added: the accumulator is `101.75`, not the
`10 + 91 = 101` the claim predicts, because the code tests substring
containment of `"P2WPKH"`, not equality. -/
theorem segwit_marker_exact_match_counterexample :
    ¬ ("P2WPKH" ∈ (["P2SH-P2WPKH"] : List String)) ∧
    estimateVsize ["P2SH-P2WPKH"] [] none 80 = 102 ∧
    estimateVsizeQ ["P2SH-P2WPKH"] [] none 80 ≠
      HEADER_VSIZE + inputCostSum ["P2SH-P2WPKH"] := by
  refine ⟨by decide, ?_, ?_⟩
  · rw [estimateVsize]
    apply ceil_eval <;>
    · simp only [estimateVsizeQ,
        (by decide : hasSegwit ["P2SH-P2WPKH"] = true), INPUT_VSIZE_LOOKUP,
        OUTPUT_VSIZE_LOOKUP, String.reduceEq, if_true, if_false,
        eq_self_iff_true, List.map_cons, List.map_nil, List.sum_cons,
        List.sum_nil, Option.getD_some, HEADER_VSIZE,
        SEGWIT_HEADER_EXTENSION_VSIZE, SEGWIT_INPUT_WITNESS_ITEM_COUNT_VSIZE]
      norm_num
  · rw [estimateVsizeQ_eq]
    simp only [(by decide : hasSegwit ["P2SH-P2WPKH"] = true), if_true,
      eq_self_iff_true, inputCostSum, outputCostSum, List.map_cons,
      List.map_nil, List.sum_cons, List.sum_nil, INPUT_VSIZE_LOOKUP,
      String.reduceEq, if_false, Option.getD_some, opReturnCost,
      HEADER_VSIZE, SEGWIT_HEADER_EXTENSION_VSIZE,
      SEGWIT_INPUT_WITNESS_ITEM_COUNT_VSIZE]
    norm_num

/-- C2 (amended): the segwit marker+flag overhead of `0.5` together with
the witness-item-count overhead of `0.25` is added to the accumulator
exactly once if and only if some input encoding contains `"P2WPKH"` as a
substring (so `"P2SH-P2WPKH"` also triggers it), and never more than once
no matter how many segwit inputs there are. -/
theorem segwit_overhead_once_iff_substring (ins outs : List String)
    (op : Option (List ℕ)) (limit : ℤ) :
    estimateVsizeQ ins outs op limit =
      HEADER_VSIZE + inputCostSum ins + outputCostSum outs +
        opReturnCost op limit +
        (if ins.any (fun encoding => includesStr encoding "P2WPKH") then
          SEGWIT_HEADER_EXTENSION_VSIZE + SEGWIT_INPUT_WITNESS_ITEM_COUNT_VSIZE
         else 0) := by
  rw [estimateVsizeQ_eq, hasSegwit_eq_any]
  ring

/-- C3 (counterexample): `"XP2WPKH"` is absent from the input lookup table,
yet inserting it into an empty input list changes the estimate (from 10 to
11), because it contains `"P2WPKH"` as a substring and so toggles the
one-time segwit overhead. -/
theorem unknown_encoding_zero_change_counterexample :
    INPUT_VSIZE_LOOKUP "XP2WPKH" = none ∧
    estimateVsize ["XP2WPKH"] [] none 80 ≠ estimateVsize [] [] none 80 := by
  have h1 : estimateVsize ["XP2WPKH"] [] none 80 = 11 := by
    rw [estimateVsize]
    apply ceil_eval <;>
    · simp only [estimateVsizeQ, (by decide : hasSegwit ["XP2WPKH"] = true),
        INPUT_VSIZE_LOOKUP, OUTPUT_VSIZE_LOOKUP, String.reduceEq, if_true,
        if_false, eq_self_iff_true, List.map_cons, List.map_nil,
        List.sum_cons, List.sum_nil, Option.getD_none, HEADER_VSIZE,
        SEGWIT_HEADER_EXTENSION_VSIZE, SEGWIT_INPUT_WITNESS_ITEM_COUNT_VSIZE]
      norm_num
  have h2 : estimateVsize [] [] none 80 = 10 := by
    rw [estimateVsize]
    apply ceil_eval <;>
    · simp only [estimateVsizeQ, (by decide : hasSegwit ([] : List String) = false),
        Bool.false_eq_true, if_true, if_false, List.map_nil, List.sum_nil,
        HEADER_VSIZE]
      norm_num
  refine ⟨by decide, ?_⟩
  rw [h1, h2]
  decide

/-- C3 (amended): an encoding absent from the lookup tables contributes
zero table cost: inserting an unknown output encoding anywhere never
changes the estimate, and inserting an unknown input encoding never changes
the estimate provided it does not contain `"P2WPKH"` as a substring (the
only effect an unknown input encoding can have is toggling the one-time
segwit overhead). -/
theorem unknown_encoding_zero_table_cost :
    (∀ u : String, OUTPUT_VSIZE_LOOKUP u = none →
      ∀ (ins outs1 outs2 : List String) (op : Option (List ℕ)) (limit : ℤ),
        estimateVsize ins (outs1 ++ u :: outs2) op limit =
          estimateVsize ins (outs1 ++ outs2) op limit) ∧
    (∀ u : String, INPUT_VSIZE_LOOKUP u = none →
      includesStr u "P2WPKH" = false →
      ∀ (ins1 ins2 outs : List String) (op : Option (List ℕ)) (limit : ℤ),
        estimateVsize (ins1 ++ u :: ins2) outs op limit =
          estimateVsize (ins1 ++ ins2) outs op limit) := by
  constructor
  · intro u hu ins outs1 outs2 op limit
    rw [estimateVsize, estimateVsize, estimateVsizeQ_eq, estimateVsizeQ_eq]
    have hsum : outputCostSum (outs1 ++ u :: outs2) =
        outputCostSum (outs1 ++ outs2) := by
      simp [outputCostSum, hu]
    rw [hsum]
  · intro u hu hinc ins1 ins2 outs op limit
    rw [estimateVsize, estimateVsize, estimateVsizeQ_eq, estimateVsizeQ_eq]
    have hsum : inputCostSum (ins1 ++ u :: ins2) =
        inputCostSum (ins1 ++ ins2) := by
      simp [inputCostSum, hu]
    have hseg : hasSegwit (ins1 ++ u :: ins2) = hasSegwit (ins1 ++ ins2) := by
      rw [hasSegwit_eq_any, hasSegwit_eq_any]
      simp [List.any_append, List.any_cons, hinc]
    rw [hsum, hseg]

/-- Witness for C3 (amended) with the unknown encoding `"FOO"`. -/
theorem unknown_encoding_zero_table_cost_witness :
    OUTPUT_VSIZE_LOOKUP "FOO" = none ∧ INPUT_VSIZE_LOOKUP "FOO" = none ∧
    includesStr "FOO" "P2WPKH" = false ∧
    estimateVsize ["P2WPKH"] ["P2PKH", "FOO"] none 80 =
      estimateVsize ["P2WPKH"] ["P2PKH"] none 80 ∧
    estimateVsize ["P2PKH", "FOO"] [] none 80 =
      estimateVsize ["P2PKH"] [] none 80 :=
  ⟨by decide, by decide, by decide,
    unknown_encoding_zero_table_cost.1 "FOO" (by decide)
      ["P2WPKH"] ["P2PKH"] [] none 80,
    unknown_encoding_zero_table_cost.2 "FOO" (by decide) (by decide)
      ["P2PKH"] [] [] none 80⟩

/-- C5: the estimate depends only on the multisets of input and output
encodings: permuting either list leaves the result unchanged. -/
theorem estimateVsize_perm_invariant (ins ins' outs outs' : List String)
    (op : Option (List ℕ)) (limit : ℤ)
    (h1 : ins.Perm ins') (h2 : outs.Perm outs') :
    estimateVsize ins outs op limit = estimateVsize ins' outs' op limit := by
  rw [estimateVsize, estimateVsize, estimateVsizeQ_eq, estimateVsizeQ_eq]
  have hseg : hasSegwit ins = hasSegwit ins' := by
    rw [hasSegwit, hasSegwit,
      (h1.filter (fun encoding => includesStr encoding "P2WPKH")).length_eq]
  have hin : inputCostSum ins = inputCostSum ins' :=
    (h1.map (fun encoding => (INPUT_VSIZE_LOOKUP encoding).getD 0)).sum_eq
  have hout : outputCostSum outs = outputCostSum outs' :=
    (h2.map (fun encoding => (OUTPUT_VSIZE_LOOKUP encoding).getD 0)).sum_eq
  rw [hseg, hin, hout]

/-- Witness for C5: swapping two inputs and two outputs. -/
theorem estimateVsize_perm_invariant_witness :
    estimateVsize ["P2WPKH", "P2PKH"] ["P2PKH", "P2WPKH"] none 80 =
      estimateVsize ["P2PKH", "P2WPKH"] ["P2WPKH", "P2PKH"] none 80 :=
  estimateVsize_perm_invariant _ _ _ _ none 80
    (List.Perm.swap "P2PKH" "P2WPKH" []) (List.Perm.swap "P2WPKH" "P2PKH" [])

/-- C8: the 0.5 + 0.25 segwit overheads are added if and only if some input
encoding contains `"P2WPKH"` as a substring: `"P2SH-P2WPKH"` triggers them
(estimate 102 = ceil(10 + 0.75 + 91)); the table-less `"XP2WPKH"` triggers
them while contributing zero table cost (estimate 11 = ceil(10 + 0.75));
output encodings only ever add their table cost and never trigger them. -/
theorem segwit_trigger_iff_substring :
    (includesStr "P2SH-P2WPKH" "P2WPKH" = true ∧
      estimateVsize ["P2SH-P2WPKH"] [] none 80 = 102) ∧
    (includesStr "XP2WPKH" "P2WPKH" = true ∧
      INPUT_VSIZE_LOOKUP "XP2WPKH" = none ∧
      estimateVsize ["XP2WPKH"] [] none 80 = 11) ∧
    (∀ (ins outs : List String) (op : Option (List ℕ)) (limit : ℤ),
      estimateVsizeQ ins outs op limit =
        estimateVsizeQ ins [] op limit + outputCostSum outs) ∧
    (∀ (ins outs : List String) (op : Option (List ℕ)) (limit : ℤ),
      (estimateVsizeQ ins outs op limit =
          HEADER_VSIZE + inputCostSum ins + outputCostSum outs +
            opReturnCost op limit +
            (SEGWIT_HEADER_EXTENSION_VSIZE +
              SEGWIT_INPUT_WITNESS_ITEM_COUNT_VSIZE)) ↔
        ∃ e ∈ ins, includesStr e "P2WPKH" = true) := by
  refine ⟨⟨by decide, ?_⟩, ⟨by decide, by decide, ?_⟩, ?_, ?_⟩
  · rw [estimateVsize]
    apply ceil_eval <;>
    · simp only [estimateVsizeQ,
        (by decide : hasSegwit ["P2SH-P2WPKH"] = true), INPUT_VSIZE_LOOKUP,
        OUTPUT_VSIZE_LOOKUP, String.reduceEq, if_true, if_false,
        eq_self_iff_true, List.map_cons, List.map_nil, List.sum_cons,
        List.sum_nil, Option.getD_some, HEADER_VSIZE,
        SEGWIT_HEADER_EXTENSION_VSIZE, SEGWIT_INPUT_WITNESS_ITEM_COUNT_VSIZE]
      norm_num
  · rw [estimateVsize]
    apply ceil_eval <;>
    · simp only [estimateVsizeQ, (by decide : hasSegwit ["XP2WPKH"] = true),
        INPUT_VSIZE_LOOKUP, OUTPUT_VSIZE_LOOKUP, String.reduceEq, if_true,
        if_false, eq_self_iff_true, List.map_cons, List.map_nil,
        List.sum_cons, List.sum_nil, Option.getD_none, HEADER_VSIZE,
        SEGWIT_HEADER_EXTENSION_VSIZE, SEGWIT_INPUT_WITNESS_ITEM_COUNT_VSIZE]
      norm_num
  · intro ins outs op limit
    rw [estimateVsizeQ_eq, estimateVsizeQ_eq]
    have h0 : outputCostSum [] = 0 := rfl
    simp only [h0]
    ring
  · intro ins outs op limit
    have hQ := estimateVsizeQ_eq ins outs op limit
    rw [hasSegwit_eq_any] at hQ
    cases h : ins.any (fun encoding => includesStr encoding "P2WPKH") with
    | false =>
      rw [h, if_neg (by decide : ¬ false = true)] at hQ
      constructor
      · intro heq
        rw [hQ] at heq
        have : SEGWIT_HEADER_EXTENSION_VSIZE +
            SEGWIT_INPUT_WITNESS_ITEM_COUNT_VSIZE = 0 := by linarith
        norm_num [SEGWIT_HEADER_EXTENSION_VSIZE,
          SEGWIT_INPUT_WITNESS_ITEM_COUNT_VSIZE] at this
      · intro ⟨e, he, hfe⟩
        exfalso
        have : ins.any (fun encoding => includesStr encoding "P2WPKH") =
            true := List.any_eq_true.mpr ⟨e, he, hfe⟩
        rw [h] at this
        exact Bool.false_ne_true this
    | true =>
      rw [h, if_pos rfl] at hQ
      constructor
      · intro _
        exact List.any_eq_true.mp h
      · intro _
        rw [hQ]
        ring

/-- C9: an empty payload behaves exactly like an omitted payload: it
contributes neither payload bytes nor chunk-prefix overhead, for every
positive size limit. -/
theorem empty_opReturn_eq_none (ins outs : List String) (limit : ℤ)
    (hpos : 0 < limit) :
    estimateVsize ins outs (some []) limit =
      estimateVsize ins outs none limit := by
  rw [estimateVsize, estimateVsize, estimateVsizeQ_eq, estimateVsizeQ_eq]
  have h : opReturnCost (some []) limit = opReturnCost none limit := by
    simp [opReturnCost, loadOPReturn]
  rw [h]

/-- Witness for C9 at limit 80. -/
theorem empty_opReturn_eq_none_witness :
    (0 : ℤ) < 80 ∧
    estimateVsize ["P2PKH"] ["P2WPKH"] (some []) 80 =
      estimateVsize ["P2PKH"] ["P2WPKH"] none 80 :=
  ⟨by decide, empty_opReturn_eq_none ["P2PKH"] ["P2WPKH"] 80 (by decide)⟩

/-- C10: the estimate is monotone in both encoding lists — appending any
encoding string to the inputs or to the outputs never decreases the
result — and with no payload the result is at least the 10-byte header
overhead. -/
theorem estimateVsize_monotone :
    (∀ (ins outs : List String) (op : Option (List ℕ)) (limit : ℤ)
        (e : String),
      estimateVsize ins outs op limit ≤
        estimateVsize (ins ++ [e]) outs op limit) ∧
    (∀ (ins outs : List String) (op : Option (List ℕ)) (limit : ℤ)
        (e : String),
      estimateVsize ins outs op limit ≤
        estimateVsize ins (outs ++ [e]) op limit) ∧
    (∀ (ins outs : List String) (limit : ℤ),
      10 ≤ estimateVsize ins outs none limit) := by
  refine ⟨?_, ?_, ?_⟩
  · intro ins outs op limit e
    rw [estimateVsize, estimateVsize]
    apply Int.ceil_mono
    rw [estimateVsizeQ_eq, estimateVsizeQ_eq]
    have hin : inputCostSum (ins ++ [e]) =
        inputCostSum ins + (INPUT_VSIZE_LOOKUP e).getD 0 := by
      simp [inputCostSum]
    have hseg :
        (if hasSegwit ins then
          SEGWIT_HEADER_EXTENSION_VSIZE + SEGWIT_INPUT_WITNESS_ITEM_COUNT_VSIZE
         else 0) ≤
        (if hasSegwit (ins ++ [e]) then
          SEGWIT_HEADER_EXTENSION_VSIZE + SEGWIT_INPUT_WITNESS_ITEM_COUNT_VSIZE
         else 0) := by
      rw [hasSegwit_eq_any, hasSegwit_eq_any, List.any_append]
      cases h : ins.any (fun encoding => includesStr encoding "P2WPKH") with
      | false =>
        rw [Bool.false_or]
        cases h2 : (List.any [e] fun encoding =>
            includesStr encoding "P2WPKH") with
        | false =>
          norm_num
        | true =>
          norm_num [SEGWIT_HEADER_EXTENSION_VSIZE,
            SEGWIT_INPUT_WITNESS_ITEM_COUNT_VSIZE]
      | true =>
        rw [Bool.true_or]
    have hcost := inputCost_nonneg e
    rw [hin]
    linarith
  · intro ins outs op limit e
    rw [estimateVsize, estimateVsize]
    apply Int.ceil_mono
    rw [estimateVsizeQ_eq, estimateVsizeQ_eq]
    have hout : outputCostSum (outs ++ [e]) =
        outputCostSum outs + (OUTPUT_VSIZE_LOOKUP e).getD 0 := by
      simp [outputCostSum]
    have hcost := outputCost_nonneg e
    rw [hout]
    linarith
  · intro ins outs limit
    rw [estimateVsize]
    have hQ : ((10 : ℤ) : ℚ) ≤ estimateVsizeQ ins outs none limit := by
      rw [estimateVsizeQ_eq]
      have h1 := inputCostSum_nonneg ins
      have h2 := outputCostSum_nonneg outs
      have h3 : (0 : ℚ) ≤
          (if hasSegwit ins then
            SEGWIT_HEADER_EXTENSION_VSIZE +
              SEGWIT_INPUT_WITNESS_ITEM_COUNT_VSIZE
           else 0) := by
        split_ifs <;>
          norm_num [SEGWIT_HEADER_EXTENSION_VSIZE,
            SEGWIT_INPUT_WITNESS_ITEM_COUNT_VSIZE]
      have h4 : opReturnCost none limit = 0 := rfl
      rw [h4, HEADER_VSIZE]
      push_cast
      linarith
    calc (10 : ℤ) = Int.ceil ((10 : ℤ) : ℚ) := (Int.ceil_intCast 10).symm
    _ ≤ Int.ceil (estimateVsizeQ ins outs none limit) := Int.ceil_mono hQ

end Vsize

namespace Codec

theorem find_checkScheme_of_distinct (schemes : List Scheme)
    (hd : schemes.Pairwise (fun a b => a.ver ≠ b.ver)) (s : Scheme)
    (enc : String) (hfind : schemes.find? (fun t => t.tag == enc) = some s)
    (body : List Char) :
    schemes.find? (fun t => checkScheme t (s.ver :: body)) = some s := by
  induction schemes with
  | nil => simp at hfind
  | cons t rest ih =>
    cases htag : (t.tag == enc) with
    | true =>
      rw [List.find?_cons_of_pos rest htag] at hfind
      injection hfind with hts
      subst hts
      have hck : checkScheme t (t.ver :: body) = true := by
        simp [checkScheme]
      rw [List.find?_cons_of_pos rest hck]
    | false =>
      rw [List.find?_cons_of_neg rest (by simp [htag])] at hfind
      have hmem : s ∈ rest := List.mem_of_find?_eq_some hfind
      have hne : t.ver ≠ s.ver := (List.pairwise_cons.mp hd).1 s hmem
      have hck : checkScheme t (s.ver :: body) = false := by
        simp only [checkScheme, beq_eq_false_iff_ne, ne_eq]
        exact fun h => hne h.symm
      rw [List.find?_cons_of_neg rest (by simp [hck])]
      exact ih (List.pairwise_cons.mp hd).2 hfind

/-- C7: for every chain family whose schemes carry pairwise-distinct
version prefixes (true of each concrete family) and every supported
encoding, verifying the address derived from a public key succeeds with
`isValid: true`, a `normalizedAddress` equal to the derived address, and
the matching encoding. -/
theorem verify_pubkeyToAddress_roundtrip (chain : ChainConfig)
    (hdistinct : chain.schemes.Pairwise (fun a b => a.ver ≠ b.ver))
    (encoding : String) (pubkey : List ℕ) (address : List Char)
    (hderive : pubkeyToAddress chain encoding pubkey = some address) :
    verifyAddress chain address =
      ⟨true, some address, some address, some encoding⟩ := by
  rw [pubkeyToAddress] at hderive
  cases hfind : chain.schemes.find? (fun s => s.tag == encoding) with
  | none =>
    rw [hfind] at hderive
    simp at hderive
  | some s =>
    rw [hfind] at hderive
    have htag : s.tag = encoding := by
      have := List.find?_some hfind
      exact beq_iff_eq.mp this
    have haddr : address = s.ver :: renderBody (modelHash pubkey) := by
      injection hderive with h
      exact h.symm
    subst haddr
    rw [verifyAddress,
      find_checkScheme_of_distinct chain.schemes hdistinct s encoding hfind
        (renderBody (modelHash pubkey))]
    simp [htag]

/-- Witness for C7: the primary chain, encoding `"P2PKH"`, key bytes
`[2, 3, 4]`. -/
theorem verify_pubkeyToAddress_roundtrip_witness :
    btcChain.schemes.Pairwise (fun a b => a.ver ≠ b.ver) ∧
    pubkeyToAddress btcChain "P2PKH" [2, 3, 4] =
      some ('1' :: renderBody (modelHash [2, 3, 4])) ∧
    verifyAddress btcChain ('1' :: renderBody (modelHash [2, 3, 4])) =
      ⟨true, some ('1' :: renderBody (modelHash [2, 3, 4])),
        some ('1' :: renderBody (modelHash [2, 3, 4])), some "P2PKH"⟩ :=
  ⟨by decide, by decide,
    verify_pubkeyToAddress_roundtrip btcChain (by decide) "P2PKH" [2, 3, 4]
      ('1' :: renderBody (modelHash [2, 3, 4])) (by decide)⟩

end Codec
